import Mathlib

/-!
Verification of the Real-Time-Drawing-Canvas session-state coordinator.

This file shallowly embeds the server-side operation log
(`server/drawing-state.js`), the room registry (`server/rooms.js`) and the
client-side replay handlers (`client` main script) as pure Lean functions,
and settles the spec's claims about them.

Modelling conventions:
- JS numbers used as indices/counters become `Int` (for the cursor, which
  ranges over `[-1, length-1]`) or `Nat` (for sizes and timestamps).
- `Array.prototype.slice(0, e)` with a possibly negative `e` is modelled by
  `jsSliceEnd` (negative end counts from the end, clamped at zero).
- JS array indexing `a[i]` (which yields `undefined` out of bounds or for a
  negative index) is modelled by `jsGet : List A -> Int -> Option A`.
- A JS `Map` is modelled as an insertion-ordered association list with
  unique keys: `set` updates in place when the key exists and appends
  otherwise, `delete` removes the key, `size` is the list length, and
  iteration order is list order.
- `Date.now()` and the random part of operation ids are ambient impure
  inputs; they are passed in as explicit parameters (`now`) or are part of
  the already-stamped operation record handed to the log.
-/

/-- JS `list.slice(0, e)`: a negative end offset counts from the end of the
array and is clamped at zero; an end beyond the length is clamped at the
length. -/
def jsSliceEnd {A : Type} (l : List A) (e : Int) : List A :=
  if e < 0 then l.take (((l.length : Int) + e).toNat) else l.take e.toNat

/-- JS `a[i]` on an array: `undefined` (here `none`) for a negative index or
an index at or beyond the length. -/
def jsGet {A : Type} (l : List A) (i : Int) : Option A :=
  if i < 0 then none else l.get? i.toNat

namespace DrawingState

/-- `maxHistorySize` from `drawing-state.js`. -/
def maxHistorySize : Nat := 1000

end DrawingState

/-- The state of `DrawingState` from `drawing-state.js`: the operation
history and the undo/redo cursor.  The entry type is a parameter: the log
treats operations opaquely. -/
structure DrawingState (A : Type) where
  operations : List A
  currentIndex : Int
deriving DecidableEq, Repr

namespace DrawingState

variable {A : Type}

/-- The `constructor`: empty history, cursor `-1`. -/
def initState : DrawingState A := ⟨[], -1⟩

/-- `addOperation` from `drawing-state.js`: truncate past the cursor, push
the (already server-stamped) operation, advance the cursor, and drop the
oldest entry when the capacity is exceeded. -/
def addOperation (s : DrawingState A) (op : A) : DrawingState A :=
  let ops :=
    if s.currentIndex < (s.operations.length : Int) - 1 then
      jsSliceEnd s.operations (s.currentIndex + 1)
    else s.operations
  let ops := ops ++ [op]
  let ci := s.currentIndex + 1
  if maxHistorySize < ops.length then ⟨ops.drop 1, ci - 1⟩ else ⟨ops, ci⟩

/-- `undo` from `drawing-state.js`: returns the operation at the cursor and
decrements it when the cursor is non-negative, else returns `none` and
leaves the state unchanged. -/
def undo (s : DrawingState A) : Option A × DrawingState A :=
  if 0 ≤ s.currentIndex then
    (jsGet s.operations s.currentIndex, ⟨s.operations, s.currentIndex - 1⟩)
  else (none, s)

/-- `redo` from `drawing-state.js`: increments the cursor and returns the
operation there when the cursor is below the tail, else returns `none` and
leaves the state unchanged. -/
def redo (s : DrawingState A) : Option A × DrawingState A :=
  if s.currentIndex < (s.operations.length : Int) - 1 then
    (jsGet s.operations (s.currentIndex + 1), ⟨s.operations, s.currentIndex + 1⟩)
  else (none, s)

/-- `getActiveOperations` from `drawing-state.js`: `operations.slice(0,
currentIndex + 1)`. -/
def getActiveOperations (s : DrawingState A) : List A :=
  jsSliceEnd s.operations (s.currentIndex + 1)

/-- `clear` from `drawing-state.js`. -/
def clear (_s : DrawingState A) : DrawingState A := ⟨[], -1⟩

/-- States reachable from the initial state by any sequence of
`addOperation`, `undo`, `redo`, `clear`. -/
inductive Reachable : DrawingState A → Prop
  | init : Reachable initState
  | add (s : DrawingState A) (op : A) : Reachable s → Reachable (addOperation s op)
  | undoStep (s : DrawingState A) : Reachable s → Reachable (undo s).2
  | redoStep (s : DrawingState A) : Reachable s → Reachable (redo s).2
  | clearStep (s : DrawingState A) : Reachable s → Reachable (clear s)

/-- The combined state invariant of the operation log. -/
def Inv (s : DrawingState A) : Prop :=
  -1 ≤ s.currentIndex ∧ s.currentIndex ≤ (s.operations.length : Int) - 1 ∧
    s.operations.length ≤ maxHistorySize

theorem inv_init : Inv (initState : DrawingState A) := by
  refine ⟨le_refl _, by norm_num [initState], by norm_num [initState, maxHistorySize]⟩

theorem inv_addOperation (s : DrawingState A) (op : A) (h : Inv s) :
    Inv (addOperation s op) := by
  obtain ⟨h1, h2, h3⟩ := h
  unfold addOperation
  by_cases hc : s.currentIndex < (s.operations.length : Int) - 1
  · -- truncating case: result length is currentIndex + 2 ≤ 1000, no shift
    have hlen : (jsSliceEnd s.operations (s.currentIndex + 1)).length
        = (s.currentIndex + 1).toNat := by
      have hnn : ¬ (s.currentIndex + 1 < 0) := by omega
      simp only [jsSliceEnd, if_neg hnn, List.length_take]
      omega
    have hno : ¬ (maxHistorySize <
        (jsSliceEnd s.operations (s.currentIndex + 1) ++ [op]).length) := by
      simp only [List.length_append, List.length_singleton, hlen]
      simp only [maxHistorySize] at h3 ⊢
      omega
    simp only [if_pos hc, if_neg hno, Inv]
    refine ⟨by omega, ?_, ?_⟩
    · simp only [List.length_append, List.length_singleton, hlen]; omega
    · simp only [List.length_append, List.length_singleton, hlen,
        maxHistorySize] at *
      omega
  · -- cursor at the tail: push, shift when over capacity
    simp only [if_neg hc]
    have hlen2 : (s.operations ++ [op]).length = s.operations.length + 1 := by
      simp
    have h3' : s.operations.length ≤ 1000 := h3
    by_cases hover : maxHistorySize < (s.operations ++ [op]).length
    · rw [if_pos hover]
      have hov : 1000 < s.operations.length + 1 := by
        rw [hlen2] at hover; exact hover
      refine ⟨?_, ?_, ?_⟩
      · show (-1 : Int) ≤ s.currentIndex + 1 - 1
        omega
      · show s.currentIndex + 1 - 1 ≤
          (((s.operations ++ [op]).drop 1).length : Int) - 1
        rw [List.length_drop, hlen2]
        push_cast
        omega
      · show ((s.operations ++ [op]).drop 1).length ≤ 1000
        rw [List.length_drop, hlen2]
        omega
    · rw [if_neg hover]
      have hov : ¬ (1000 < s.operations.length + 1) := by
        rw [hlen2] at hover; exact hover
      refine ⟨?_, ?_, ?_⟩
      · show (-1 : Int) ≤ s.currentIndex + 1
        omega
      · show s.currentIndex + 1 ≤ ((s.operations ++ [op]).length : Int) - 1
        rw [hlen2]
        push_cast
        omega
      · show (s.operations ++ [op]).length ≤ 1000
        rw [hlen2]
        omega

theorem inv_undo (s : DrawingState A) (h : Inv s) : Inv (undo s).2 := by
  obtain ⟨h1, h2, h3⟩ := h
  unfold undo
  by_cases hc : 0 ≤ s.currentIndex
  · simp only [if_pos hc, Inv]
    exact ⟨by omega, by omega, h3⟩
  · simp only [if_neg hc, Inv]
    exact ⟨h1, h2, h3⟩

theorem inv_redo (s : DrawingState A) (h : Inv s) : Inv (redo s).2 := by
  obtain ⟨h1, h2, h3⟩ := h
  unfold redo
  by_cases hc : s.currentIndex < (s.operations.length : Int) - 1
  · simp only [if_pos hc, Inv]
    exact ⟨by omega, by omega, h3⟩
  · simp only [if_neg hc, Inv]
    exact ⟨h1, h2, h3⟩

theorem inv_clear (s : DrawingState A) : Inv (clear s : DrawingState A) := by
  refine ⟨le_refl _, by norm_num [clear], by norm_num [clear, maxHistorySize]⟩

/-- Every reachable log state satisfies the invariant. -/
theorem inv_of_reachable {s : DrawingState A} (h : Reachable s) : Inv s := by
  induction h with
  | init => exact inv_init
  | add s op _ ih => exact inv_addOperation s op ih
  | undoStep s _ ih => exact inv_undo s ih
  | redoStep s _ ih => exact inv_redo s ih
  | clearStep s _ ih => exact inv_clear s

end DrawingState

namespace DrawingState

variable {A : Type}

/-- Helper: the length of the truncated prefix when the cursor is strictly
below the tail and at least `-1`. -/
theorem length_jsSliceEnd_succ (s : DrawingState A) (h1 : -1 ≤ s.currentIndex)
    (hc : s.currentIndex < (s.operations.length : Int) - 1) :
    (jsSliceEnd s.operations (s.currentIndex + 1)).length
      = (s.currentIndex + 1).toNat := by
  have hnn : ¬ (s.currentIndex + 1 < 0) := by omega
  simp only [jsSliceEnd, if_neg hnn, List.length_take]
  omega

/-- Helper: in the truncating case with the invariant, `addOperation` is
exactly truncate-then-append, with no capacity shift. -/
theorem addOperation_truncating (s : DrawingState A) (op : A)
    (h1 : -1 ≤ s.currentIndex) (h3 : s.operations.length ≤ maxHistorySize)
    (hc : s.currentIndex < (s.operations.length : Int) - 1) :
    addOperation s op =
      ⟨s.operations.take (s.currentIndex + 1).toNat ++ [op], s.currentIndex + 1⟩ := by
  have hlen := length_jsSliceEnd_succ s h1 hc
  have hno : ¬ (maxHistorySize <
      (jsSliceEnd s.operations (s.currentIndex + 1) ++ [op]).length) := by
    show ¬ (1000 < _)
    simp only [List.length_append, List.length_singleton, hlen]
    have h3' : s.operations.length ≤ 1000 := h3
    omega
  have hsl : jsSliceEnd s.operations (s.currentIndex + 1)
      = s.operations.take (s.currentIndex + 1).toNat := by
    have hnn : ¬ (s.currentIndex + 1 < 0) := by omega
    simp only [jsSliceEnd, if_neg hnn]
  unfold addOperation
  rw [if_pos hc, if_neg hno, hsl]

/-- Helper: with the cursor at the tail of a saturated log, `addOperation`
drops the head, appends at the tail, and keeps the cursor at the tail. -/
theorem addOperation_saturated (s : DrawingState A) (op : A)
    (hl : s.operations.length = 1000) (hci : s.currentIndex = 999) :
    addOperation s op = ⟨s.operations.drop 1 ++ [op], 999⟩ := by
  have hc : ¬ (s.currentIndex < (s.operations.length : Int) - 1) := by
    rw [hl, hci]; norm_num
  have hover : maxHistorySize < (s.operations ++ [op]).length := by
    show 1000 < _
    simp [hl]
  have hdrop : (s.operations ++ [op]).drop 1 = s.operations.drop 1 ++ [op] := by
    apply List.drop_append_of_le_length
    omega
  unfold addOperation
  rw [if_neg hc, if_pos hover, hdrop, hci]
  norm_num

end DrawingState

/-- Claim C1: for every reachable state of the operation log (any sequence
of `addOperation`, `undo`, `redo`, `clear` from the initial state), the
cursor satisfies `-1 ≤ currentIndex ≤ operations.length - 1`. -/
theorem claim_c1_cursor_bounds {A : Type} (s : DrawingState A)
    (h : DrawingState.Reachable s) :
    -1 ≤ s.currentIndex ∧ s.currentIndex ≤ (s.operations.length : Int) - 1 :=
  ⟨(DrawingState.inv_of_reachable h).1, (DrawingState.inv_of_reachable h).2.1⟩

/-- Witness for C1 at the concrete reachable state reached by one append. -/
theorem claim_c1_witness :
    -1 ≤ (DrawingState.addOperation (DrawingState.initState : DrawingState Nat) 5).currentIndex
    ∧ (DrawingState.addOperation (DrawingState.initState : DrawingState Nat) 5).currentIndex
        ≤ ((DrawingState.addOperation (DrawingState.initState : DrawingState Nat) 5).operations.length : Int) - 1 :=
  claim_c1_cursor_bounds _
    (DrawingState.Reachable.add _ 5 DrawingState.Reachable.init)

/-- Claim C2: under the log invariant, `addOperation` leaves the new
operation as the tail with the cursor at the tail index; and when the
cursor is strictly below the tail (`c < L-1`), the result is exactly the
prefix up to the cursor followed by the new operation, of length `c+2`. -/
theorem claim_c2_append_truncates {A : Type} (s : DrawingState A) (op : A)
    (h : DrawingState.Inv s) :
    ((DrawingState.addOperation s op).operations.getLast? = some op
      ∧ (DrawingState.addOperation s op).currentIndex =
          ((DrawingState.addOperation s op).operations.length : Int) - 1)
    ∧ (s.currentIndex < (s.operations.length : Int) - 1 →
        DrawingState.addOperation s op =
          ⟨s.operations.take (s.currentIndex + 1).toNat ++ [op], s.currentIndex + 1⟩
        ∧ ((DrawingState.addOperation s op).operations.length : Int)
            = s.currentIndex + 2) := by
  obtain ⟨h1, h2, h3⟩ := h
  constructor
  · by_cases hc : s.currentIndex < (s.operations.length : Int) - 1
    · rw [DrawingState.addOperation_truncating s op h1 h3 hc]
      constructor
      · exact List.getLast?_concat _
      · show s.currentIndex + 1 =
          ((s.operations.take (s.currentIndex + 1).toNat ++ [op]).length : Int) - 1
        simp only [List.length_append, List.length_take, List.length_singleton]
        push_cast
        omega
    · by_cases hover : DrawingState.maxHistorySize < (s.operations ++ [op]).length
      · have hl : s.operations.length = 1000 := by
          have : 1000 < s.operations.length + 1 := by
            simpa using hover
          have h3' : s.operations.length ≤ 1000 := h3
          omega
        have hci : s.currentIndex = 999 := by
          rw [hl] at h2 hc
          omega
        rw [DrawingState.addOperation_saturated s op hl hci]
        constructor
        · exact List.getLast?_concat _
        · show (999 : Int) = ((s.operations.drop 1 ++ [op]).length : Int) - 1
          simp only [List.length_append, List.length_drop, List.length_singleton, hl]
          norm_num
      · have heq : DrawingState.addOperation s op
            = ⟨s.operations ++ [op], s.currentIndex + 1⟩ := by
          unfold DrawingState.addOperation
          rw [if_neg hc, if_neg hover]
        rw [heq]
        constructor
        · exact List.getLast?_concat _
        · show s.currentIndex + 1 = ((s.operations ++ [op]).length : Int) - 1
          simp only [List.length_append, List.length_singleton]
          push_cast
          omega
  · intro hc
    have heq := DrawingState.addOperation_truncating s op h1 h3 hc
    refine ⟨heq, ?_⟩
    rw [heq]
    show ((s.operations.take (s.currentIndex + 1).toNat ++ [op]).length : Int)
        = s.currentIndex + 2
    simp only [List.length_append, List.length_take, List.length_singleton]
    push_cast
    omega

/-- Witness for C2 at the concrete state `⟨[3, 4], 0⟩` (length 2, cursor 0):
appending 9 yields `⟨[3, 9], 1⟩`. -/
theorem claim_c2_witness :
    DrawingState.addOperation (⟨[3, 4], 0⟩ : DrawingState Nat) 9 = ⟨[3, 9], 1⟩ := by
  have h := claim_c2_append_truncates (⟨[3, 4], 0⟩ : DrawingState Nat) 9
    ⟨by decide, by decide, by decide⟩
  rw [(h.2 (by decide)).1]
  rfl

/-- Claim C3: the length of every reachable log never exceeds 1000; and on a
saturated log (length 1000) with the cursor at the tail (999), appending
keeps the length at 1000, drops the oldest entry, and keeps the cursor at
the tail (it is incremented and then decremented, preserving the relative
position). -/
theorem claim_c3_capacity {A : Type} (s : DrawingState A) (op : A) :
    (DrawingState.Reachable s → s.operations.length ≤ 1000)
    ∧ (s.operations.length = 1000 → s.currentIndex = 999 →
        (DrawingState.addOperation s op).operations = s.operations.drop 1 ++ [op]
        ∧ (DrawingState.addOperation s op).operations.length = 1000
        ∧ (DrawingState.addOperation s op).currentIndex = 999) := by
  constructor
  · intro h
    exact (DrawingState.inv_of_reachable h).2.2
  · intro hl hci
    have heq := DrawingState.addOperation_saturated s op hl hci
    refine ⟨by rw [heq], ?_, by rw [heq]⟩
    rw [heq]
    show (s.operations.drop 1 ++ [op]).length = 1000
    simp [hl]

/-- Witness for C3: the initial state is within capacity, and appending to
a concrete saturated log of 1000 zeros with the cursor at 999 keeps the
cursor at 999. -/
theorem claim_c3_witness :
    (DrawingState.initState : DrawingState Nat).operations.length ≤ 1000
    ∧ (DrawingState.addOperation
        (⟨List.replicate 1000 0, 999⟩ : DrawingState Nat) 7).currentIndex = 999 :=
  ⟨(claim_c3_capacity _ 0).1 DrawingState.Reachable.init,
   ((claim_c3_capacity (⟨List.replicate 1000 0, 999⟩ : DrawingState Nat) 7).2
      (by show (List.replicate 1000 (0 : Nat)).length = 1000
          rw [List.length_replicate]) rfl).2.2⟩

/-- Claim C4: `undo` returns the operation at the cursor and decrements it
exactly when the cursor is non-negative, and is an identity returning
`none` otherwise; `redo` increments the cursor and returns the operation at
the incremented cursor exactly when the cursor is strictly below the tail,
and is an identity returning `none` otherwise. -/
theorem claim_c4_undo_redo {A : Type} (s : DrawingState A) :
    (0 ≤ s.currentIndex →
      DrawingState.undo s =
        (jsGet s.operations s.currentIndex, ⟨s.operations, s.currentIndex - 1⟩))
    ∧ (s.currentIndex < 0 → DrawingState.undo s = (none, s))
    ∧ (s.currentIndex < (s.operations.length : Int) - 1 →
      DrawingState.redo s =
        (jsGet s.operations (s.currentIndex + 1), ⟨s.operations, s.currentIndex + 1⟩))
    ∧ (¬ s.currentIndex < (s.operations.length : Int) - 1 →
      DrawingState.redo s = (none, s)) := by
  refine ⟨?_, ?_, ?_, ?_⟩
  · intro h
    unfold DrawingState.undo
    rw [if_pos h]
  · intro h
    unfold DrawingState.undo
    rw [if_neg (by omega)]
  · intro h
    unfold DrawingState.redo
    rw [if_pos h]
  · intro h
    unfold DrawingState.redo
    rw [if_neg h]

/-- Witness for C4 at the concrete state `⟨[3, 4], 1⟩`: `undo` returns the
tail entry and decrements; `redo` at the tail is a no-op returning none. -/
theorem claim_c4_witness :
    DrawingState.undo (⟨[3, 4], 1⟩ : DrawingState Nat) = (some 4, ⟨[3, 4], 0⟩)
    ∧ DrawingState.redo (⟨[3, 4], 1⟩ : DrawingState Nat)
        = (none, ⟨[3, 4], 1⟩) := by
  have h := claim_c4_undo_redo (⟨[3, 4], 1⟩ : DrawingState Nat)
  constructor
  · rw [h.1 (by decide)]
    rfl
  · rw [h.2.2.2 (by decide)]

/-- Claim C5 counterexample: from the reachable state `⟨[0], -1⟩` (append
then undo), `undo` is a no-op, but `redo` then succeeds and moves the
cursor to 0, so undo-then-redo does not restore the pre-undo cursor and
active slice. -/
theorem claim_c5_counterexample :
    ¬ ((DrawingState.redo (DrawingState.undo
          ((DrawingState.undo (DrawingState.addOperation
            (DrawingState.initState : DrawingState Nat) 0)).2)).2).2.currentIndex
        = ((DrawingState.undo (DrawingState.addOperation
            (DrawingState.initState : DrawingState Nat) 0)).2).currentIndex
      ∧ DrawingState.getActiveOperations (DrawingState.redo (DrawingState.undo
          ((DrawingState.undo (DrawingState.addOperation
            (DrawingState.initState : DrawingState Nat) 0)).2)).2).2
        = DrawingState.getActiveOperations ((DrawingState.undo
            (DrawingState.addOperation
              (DrawingState.initState : DrawingState Nat) 0)).2)) := by
  decide

/-- Claim C5 (amended): on every reachable state whose cursor is
non-negative (that is, where `undo` actually returns an operation), `undo`
followed by `redo` restores both the cursor and the active slice. -/
theorem claim_c5_undo_redo_roundtrip {A : Type} (s : DrawingState A)
    (hr : DrawingState.Reachable s) (h0 : 0 ≤ s.currentIndex) :
    (DrawingState.redo (DrawingState.undo s).2).2.currentIndex = s.currentIndex
    ∧ DrawingState.getActiveOperations (DrawingState.redo (DrawingState.undo s).2).2
        = DrawingState.getActiveOperations s := by
  obtain ⟨h1, h2, h3⟩ := DrawingState.inv_of_reachable hr
  have hu : (DrawingState.undo s).2 = ⟨s.operations, s.currentIndex - 1⟩ := by
    unfold DrawingState.undo
    rw [if_pos h0]
  have hrd : (DrawingState.redo (⟨s.operations, s.currentIndex - 1⟩ : DrawingState A)).2
      = ⟨s.operations, s.currentIndex - 1 + 1⟩ := by
    unfold DrawingState.redo
    rw [if_pos (by show s.currentIndex - 1 < (s.operations.length : Int) - 1; omega)]
  rw [hu, hrd]
  constructor
  · show s.currentIndex - 1 + 1 = s.currentIndex
    omega
  · show jsSliceEnd s.operations (s.currentIndex - 1 + 1 + 1)
        = jsSliceEnd s.operations (s.currentIndex + 1)
    norm_num

/-- Witness for C5 at the reachable state `⟨[0], 0⟩` (one append). -/
theorem claim_c5_witness :
    (DrawingState.redo (DrawingState.undo (DrawingState.addOperation
        (DrawingState.initState : DrawingState Nat) 0)).2).2.currentIndex
      = (DrawingState.addOperation
          (DrawingState.initState : DrawingState Nat) 0).currentIndex
    ∧ DrawingState.getActiveOperations (DrawingState.redo (DrawingState.undo
        (DrawingState.addOperation
          (DrawingState.initState : DrawingState Nat) 0)).2).2
      = DrawingState.getActiveOperations (DrawingState.addOperation
          (DrawingState.initState : DrawingState Nat) 0) :=
  claim_c5_undo_redo_roundtrip _
    (DrawingState.Reachable.add _ 0 DrawingState.Reachable.init) (by decide)

/-- Claim C8: `clear` yields the empty history with cursor `-1`, and
clearing twice equals clearing once. -/
theorem claim_c8_clear_idempotent {A : Type} (s : DrawingState A) :
    (DrawingState.clear s).operations = []
    ∧ (DrawingState.clear s).currentIndex = -1
    ∧ DrawingState.clear (DrawingState.clear s) = DrawingState.clear s :=
  ⟨rfl, rfl, rfl⟩

/-! ## Room registry (`server/rooms.js`) -/

/-- JS `Map.prototype.get` over the association-list model. -/
def mapGet {B : Type} (m : List (String × B)) (k : String) : Option B :=
  match m with
  | [] => none
  | p :: t => if p.1 == k then some p.2 else mapGet t k

/-- JS `Map.prototype.set`: updates the entry in place when the key is
present, otherwise appends at the end (preserving insertion order). -/
def mapSet {B : Type} (m : List (String × B)) (k : String) (v : B) :
    List (String × B) :=
  match m with
  | [] => [(k, v)]
  | p :: t => if p.1 == k then (k, v) :: t else p :: mapSet t k v

/-- JS `Map.prototype.delete`: removes the entry for the key. -/
def mapDelete {B : Type} (m : List (String × B)) (k : String) :
    List (String × B) :=
  match m with
  | [] => []
  | p :: t => if p.1 == k then t else p :: mapDelete t k

/-- Keys of the association list are pairwise distinct — every state built
by `set`/`delete` from the empty map has this (it is what makes the list a
faithful `Map`). -/
def keysNodup {B : Type} (m : List (String × B)) : Prop :=
  (m.map Prod.fst).Nodup

theorem mapGet_mapSet_self {B : Type} (m : List (String × B)) (k : String)
    (v : B) : mapGet (mapSet m k v) k = some v := by
  induction m with
  | nil => simp [mapGet, mapSet]
  | cons p t ih =>
    by_cases hp : p.1 == k
    · simp [mapSet, mapGet, hp]
    · simp only [mapSet, if_neg hp, mapGet, hp]
      exact ih

theorem mapGet_mapSet_ne {B : Type} (m : List (String × B)) (k k' : String)
    (v : B) (h : k' ≠ k) : mapGet (mapSet m k v) k' = mapGet m k' := by
  induction m with
  | nil =>
    have : ¬ (k == k') := by simpa using fun hh => h hh.symm
    simp [mapGet, mapSet, this]
  | cons p t ih =>
    by_cases hp : p.1 == k
    · have hkk : ¬ (k == k') := by simpa using fun hh => h hh.symm
      have hp' : ¬ (p.1 == k') := by
        have hpk : p.1 = k := by simpa using hp
        simpa [hpk] using hkk
      simp [mapSet, mapGet, hp, hkk, hp']
    · simp only [mapSet, if_neg hp, mapGet]
      by_cases hq : p.1 == k'
      · simp [hq]
      · simp only [if_neg hq]
        exact ih

theorem mapGet_eq_none_of_not_mem {B : Type} (m : List (String × B))
    (k : String) (h : k ∉ m.map Prod.fst) : mapGet m k = none := by
  induction m with
  | nil => rfl
  | cons p t ih =>
    simp only [List.map_cons, List.mem_cons] at h
    push_neg at h
    have hp : ¬ (p.1 == k) := by simpa using fun hh => h.1 hh.symm
    simp only [mapGet, if_neg hp]
    exact ih h.2

theorem mem_keys_mapSet {B : Type} (m : List (String × B)) (k x : String)
    (v : B) (hx : x ∈ (mapSet m k v).map Prod.fst) :
    x ∈ m.map Prod.fst ∨ x = k := by
  induction m with
  | nil =>
    simp only [mapSet, List.map_cons, List.map_nil, List.mem_singleton] at hx
    exact Or.inr hx
  | cons p t ih =>
    by_cases hp : p.1 == k
    · simp only [mapSet, if_pos hp, List.map_cons, List.mem_cons] at hx
      rcases hx with hx | hx
      · exact Or.inr hx
      · exact Or.inl (by simp [hx])
    · simp only [mapSet, if_neg hp, List.map_cons, List.mem_cons] at hx
      rcases hx with hx | hx
      · exact Or.inl (by simp [hx])
      · rcases ih hx with hh | hh
        · exact Or.inl (by simp [hh])
        · exact Or.inr hh

theorem keysNodup_mapSet {B : Type} (m : List (String × B)) (k : String)
    (v : B) (h : keysNodup m) : keysNodup (mapSet m k v) := by
  induction m with
  | nil => simp [keysNodup, mapSet]
  | cons p t ih =>
    unfold keysNodup at h
    simp only [List.map_cons, List.nodup_cons] at h
    by_cases hp : p.1 == k
    · have hpk : p.1 = k := by simpa using hp
      unfold keysNodup
      simp only [mapSet, if_pos hp, List.map_cons, List.nodup_cons]
      exact ⟨by rw [← hpk]; exact h.1, h.2⟩
    · unfold keysNodup
      simp only [mapSet, if_neg hp, List.map_cons, List.nodup_cons]
      refine ⟨?_, ih h.2⟩
      intro hmem
      rcases mem_keys_mapSet t k p.1 v hmem with hh | hh
      · exact h.1 hh
      · exact absurd (by simpa using hh) hp

theorem mapGet_mapDelete_self {B : Type} (m : List (String × B)) (k : String)
    (h : keysNodup m) : mapGet (mapDelete m k) k = none := by
  induction m with
  | nil => rfl
  | cons p t ih =>
    unfold keysNodup at h
    simp only [List.map_cons, List.nodup_cons] at h
    by_cases hp : p.1 == k
    · have hpk : p.1 = k := by simpa using hp
      simp only [mapDelete, if_pos hp]
      apply mapGet_eq_none_of_not_mem
      rw [← hpk]
      exact h.1
    · simp only [mapDelete, if_neg hp, mapGet, if_neg hp]
      exact ih h.2

theorem mapGet_mapDelete_ne {B : Type} (m : List (String × B)) (k k' : String)
    (h : k' ≠ k) : mapGet (mapDelete m k) k' = mapGet m k' := by
  induction m with
  | nil => rfl
  | cons p t ih =>
    by_cases hp : p.1 == k
    · have hpk : p.1 = k := by simpa using hp
      have hp' : ¬ (p.1 == k') := by
        simpa [hpk] using fun hh => h hh.symm
      simp [mapDelete, mapGet, hp, hp']
    · simp only [mapDelete, if_neg hp, mapGet]
      by_cases hq : p.1 == k'
      · simp [hq]
      · simp only [if_neg hq]
        exact ih

theorem length_pos_of_mapGet_some {B : Type} (m : List (String × B))
    (k : String) (v : B) (h : mapGet m k = some v) : m.length ≠ 0 := by
  cases m with
  | nil => simp [mapGet] at h
  | cons p t => simp

/-- An `Operation` record as built by the `draw` / `stroke-complete` server
handlers and stamped by `DrawingState.addOperation`: client payloads are
kept opaque as strings. -/
structure Operation where
  type : String
  data : String
  userId : String
  userName : String
  userColor : String
  opId : String
  timestamp : Nat
deriving DecidableEq, Repr

/-- The user record built by `RoomManager.addUserToRoom`. -/
structure User where
  id : String
  name : String
  color : String
  joinedAt : Nat
deriving DecidableEq, Repr

/-- A room record as created by `RoomManager.getOrCreateRoom`. -/
structure Room where
  id : String
  state : DrawingState Operation
  users : List (String × User)
  createdAt : Nat
deriving DecidableEq, Repr

/-- The `RoomManager` state from `rooms.js`: room map and the
socket → room reverse index. -/
structure RoomManager where
  rooms : List (String × Room)
  userRooms : List (String × String)
deriving DecidableEq, Repr

namespace RoomManager

/-- The fixed 12-entry `userColors` palette from `rooms.js`. -/
def userColors : List String :=
  ["#FF6B6B", "#4ECDC4", "#45B7D1", "#FFA07A",
   "#98D8C8", "#F7DC6F", "#BB8FCE", "#85C1E2",
   "#F8B739", "#52B788", "#FF85A1", "#5DADE2"]

/-- The `RoomManager` constructor: empty maps. -/
def emptyManager : RoomManager := ⟨[], []⟩

/-- `getOrCreateRoom` from `rooms.js`; `now` stands for `Date.now()`. -/
def getOrCreateRoom (rm : RoomManager) (roomId : String) (now : Nat) :
    RoomManager × Room :=
  match mapGet rm.rooms roomId with
  | some r => (rm, r)
  | none =>
    let r : Room := ⟨roomId, DrawingState.initState, [], now⟩
    ({ rm with rooms := mapSet rm.rooms roomId r }, r)

/-- `addUserToRoom` from `rooms.js`: the color index is the CURRENT presence
size modulo the palette length, the default name uses the same size, and
the user is inserted into the room and the reverse index.  A `some ""` name
is falsy in JS (`userData.name || ...`) and falls back to the default. -/
def addUserToRoom (rm : RoomManager) (roomId socketId : String)
    (userName : Option String) (now : Nat) : RoomManager × User :=
  let rmRoom := getOrCreateRoom rm roomId now
  let rm1 := rmRoom.1
  let room := rmRoom.2
  let colorIndex := room.users.length % userColors.length
  let name :=
    match userName with
    | some n => if n = "" then "User " ++ toString (room.users.length + 1) else n
    | none => "User " ++ toString (room.users.length + 1)
  let user : User := ⟨socketId, name, userColors.getD colorIndex "", now⟩
  let room2 := { room with users := mapSet room.users socketId user }
  ({ rm1 with rooms := mapSet rm1.rooms roomId room2,
              userRooms := mapSet rm1.userRooms socketId roomId }, user)

/-- `removeUser` from `rooms.js`: resolve the reverse index (a missing or
falsy-empty room id is a no-op), delete the user from the room and the
reverse index, and report (third component) whether the room became empty —
which is exactly when the JS code schedules the deferred eviction. -/
def removeUser (rm : RoomManager) (socketId : String) :
    RoomManager × Option Room × Bool :=
  match mapGet rm.userRooms socketId with
  | none => (rm, none, false)
  | some roomId =>
    if roomId = "" then (rm, none, false)
    else
      match mapGet rm.rooms roomId with
      | none => (rm, none, false)
      | some room =>
        let room2 := { room with users := mapDelete room.users socketId }
        let rm2 := { rm with rooms := mapSet rm.rooms roomId room2,
                             userRooms := mapDelete rm.userRooms socketId }
        (rm2, some room2, room2.users.length == 0)

/-- The body of the deferred eviction callback scheduled by `removeUser`:
re-resolve the room at fire time and delete it only when it is still
empty. -/
def evictionFire (rm : RoomManager) (roomId : String) : RoomManager :=
  match mapGet rm.rooms roomId with
  | none => rm
  | some room =>
    if room.users.length = 0 then { rm with rooms := mapDelete rm.rooms roomId }
    else rm

/-- `getRoomBySocketId` from `rooms.js`. -/
def getRoomBySocketId (rm : RoomManager) (socketId : String) : Option Room :=
  match mapGet rm.userRooms socketId with
  | none => none
  | some roomId => if roomId = "" then none else mapGet rm.rooms roomId

/-- `getUser` from `rooms.js`. -/
def getUser (rm : RoomManager) (socketId : String) : Option User :=
  match getRoomBySocketId rm socketId with
  | none => none
  | some room => mapGet room.users socketId

/-- `getRoomUsers` from `rooms.js`: the users of the room in insertion
(join) order. -/
def getRoomUsers (rm : RoomManager) (roomId : String) : List User :=
  match mapGet rm.rooms roomId with
  | none => []
  | some room => room.users.map (fun p => p.2)

end RoomManager

namespace RoomManager

theorem getOrCreateRoom_rooms_ne (rm : RoomManager) (roomId other : String)
    (now : Nat) (h : other ≠ roomId) :
    mapGet ((getOrCreateRoom rm roomId now).1).rooms other
      = mapGet rm.rooms other := by
  unfold getOrCreateRoom
  cases hm : mapGet rm.rooms roomId with
  | none =>
    simp only [hm]
    exact mapGet_mapSet_ne _ _ _ _ h
  | some r => simp only [hm]

theorem getOrCreateRoom_userRooms (rm : RoomManager) (roomId : String)
    (now : Nat) :
    ((getOrCreateRoom rm roomId now).1).userRooms = rm.userRooms := by
  unfold getOrCreateRoom
  cases hm : mapGet rm.rooms roomId with
  | none => simp only [hm]
  | some r => simp only [hm]

theorem addUserToRoom_rooms_ne (rm : RoomManager) (roomId socketId other : String)
    (nm : Option String) (now : Nat) (h : other ≠ roomId) :
    mapGet ((addUserToRoom rm roomId socketId nm now).1).rooms other
      = mapGet rm.rooms other := by
  show mapGet (mapSet ((getOrCreateRoom rm roomId now).1).rooms roomId _) other
      = mapGet rm.rooms other
  rw [mapGet_mapSet_ne _ _ _ _ h]
  exact getOrCreateRoom_rooms_ne rm roomId other now h

theorem addUserToRoom_userRooms_self (rm : RoomManager)
    (roomId socketId : String) (nm : Option String) (now : Nat) :
    mapGet ((addUserToRoom rm roomId socketId nm now).1).userRooms socketId
      = some roomId := by
  show mapGet (mapSet ((getOrCreateRoom rm roomId now).1).userRooms socketId roomId)
        socketId = some roomId
  exact mapGet_mapSet_self _ _ _

theorem addUserToRoom_rooms_self (rm : RoomManager)
    (roomId socketId : String) (nm : Option String) (now : Nat) :
    mapGet ((addUserToRoom rm roomId socketId nm now).1).rooms roomId
      = some { (getOrCreateRoom rm roomId now).2 with
               users := mapSet ((getOrCreateRoom rm roomId now).2).users socketId
                 ((addUserToRoom rm roomId socketId nm now).2) } := by
  exact mapGet_mapSet_self _ _ _

theorem removeUser_eval (rm : RoomManager) (socketId roomId : String)
    (room : Room) (h1 : mapGet rm.userRooms socketId = some roomId)
    (hB : roomId ≠ "") (h2 : mapGet rm.rooms roomId = some room) :
    (removeUser rm socketId).1 =
      { rm with
        rooms := mapSet rm.rooms roomId
          { room with users := mapDelete room.users socketId },
        userRooms := mapDelete rm.userRooms socketId } := by
  unfold removeUser
  simp only [h1, h2, if_neg hB]

end RoomManager

/-- Claim C7 counterexample: in room "r", user "s1" joins (receiving
palette entry 0), leaves, and then a second user "s2" joins.  "s2" is the
second user ever to join (join sequence number 1), so the claim predicts
palette entry `1 mod 12` = "#4ECDC4"; the code assigns by current presence
size and gives "#FF6B6B" again, reusing the color out of cycle. -/
theorem claim_c7_counterexample :
    ((RoomManager.addUserToRoom
        (RoomManager.removeUser
          (RoomManager.addUserToRoom RoomManager.emptyManager "r" "s1" none 0).1
          "s1").1
        "r" "s2" none 0).2).color = "#FF6B6B"
    ∧ ((RoomManager.addUserToRoom
        (RoomManager.removeUser
          (RoomManager.addUserToRoom RoomManager.emptyManager "r" "s1" none 0).1
          "s1").1
        "r" "s2" none 0).2).color ≠ RoomManager.userColors.getD (1 % 12) "" := by
  constructor
  · rfl
  · decide

/-- Sequential joins of a list of sockets into one room (no leaves). -/
def joinSeq (rm : RoomManager) (roomId : String) (ids : List String) :
    RoomManager :=
  ids.foldl (fun r sid => (RoomManager.addUserToRoom r roomId sid none 0).1) rm

/-- Claim C7 (amended): the color assigned to a joining user is
`palette[presenceSize mod 12]`, where `presenceSize` is the number of users
present in the room at the moment of the join (not the all-time join
sequence number); consequently, when no user leaves in between, the 13th
user to join a fresh room receives the same color as the 1st. -/
theorem claim_c7_color_by_presence_size :
    (∀ (rm : RoomManager) (roomId socketId : String) (nm : Option String)
        (now : Nat),
      ((RoomManager.addUserToRoom rm roomId socketId nm now).2).color
        = RoomManager.userColors.getD
            (((RoomManager.getOrCreateRoom rm roomId now).2).users.length % 12) "")
    ∧ ((RoomManager.addUserToRoom
          (joinSeq RoomManager.emptyManager "r"
            ["a", "b", "c", "d", "e", "f", "g", "h", "i", "j", "k", "l"])
          "r" "m" none 0).2).color
        = ((RoomManager.addUserToRoom RoomManager.emptyManager "r" "a" none 0).2).color := by
  constructor
  · intro rm roomId socketId nm now
    rfl
  · decide

/-- Claim C9: after any user joins a room, firing the deferred eviction
check leaves the room in place with that user present (the room is
non-empty at fire time, so the re-validation skips the stale eviction);
and an eviction fire deletes a room only when the room is still empty at
fire time. -/
theorem claim_c9_eviction_revalidated (rm : RoomManager)
    (roomId socketId : String) (nm : Option String) (now : Nat) :
    (∃ room,
        mapGet ((RoomManager.evictionFire
            ((RoomManager.addUserToRoom rm roomId socketId nm now).1)
            roomId)).rooms roomId = some room
        ∧ (mapGet room.users socketId).isSome = true)
    ∧ (∀ (rm2 : RoomManager) (rid : String),
        mapGet ((RoomManager.evictionFire rm2 rid)).rooms rid = none →
          mapGet rm2.rooms rid = none
          ∨ ∃ room, mapGet rm2.rooms rid = some room ∧ room.users = []) := by
  constructor
  · have h1 := RoomManager.addUserToRoom_rooms_self rm roomId socketId nm now
    have h2 : mapGet ({ (RoomManager.getOrCreateRoom rm roomId now).2 with
        users := mapSet ((RoomManager.getOrCreateRoom rm roomId now).2).users socketId
          ((RoomManager.addUserToRoom rm roomId socketId nm now).2) } : Room).users
          socketId
        = some ((RoomManager.addUserToRoom rm roomId socketId nm now).2) :=
      mapGet_mapSet_self _ _ _
    have hlen := length_pos_of_mapGet_some _ _ _ h2
    have hfire : RoomManager.evictionFire
        ((RoomManager.addUserToRoom rm roomId socketId nm now).1) roomId
        = (RoomManager.addUserToRoom rm roomId socketId nm now).1 := by
      unfold RoomManager.evictionFire
      simp only [h1, if_neg hlen]
    refine ⟨_, by rw [hfire]; exact h1, by rw [h2]; rfl⟩
  · intro rm2 rid hdel
    cases hm : mapGet rm2.rooms rid with
    | none => exact Or.inl rfl
    | some room =>
      refine Or.inr ⟨room, rfl, ?_⟩
      unfold RoomManager.evictionFire at hdel
      simp only [hm] at hdel
      by_cases hlen : room.users.length = 0
      · exact List.length_eq_zero.mp hlen
      · rw [if_neg hlen] at hdel
        rw [hdel] at hm
        simp [mapGet] at hm

/-- Witness for C9: joining "a" to room "r" of the empty manager and firing
the eviction keeps the room with "a" present; and a manager holding one
empty room has it deleted by the fire, and that room is indeed empty. -/
theorem claim_c9_witness :
    (∃ room,
        mapGet ((RoomManager.evictionFire
            ((RoomManager.addUserToRoom RoomManager.emptyManager "r" "a" none 0).1)
            "r")).rooms "r" = some room
        ∧ (mapGet room.users "a").isSome = true)
    ∧ (mapGet (⟨[("r", ⟨"r", DrawingState.initState, [], 0⟩)], []⟩ : RoomManager).rooms
          "r" = none
       ∨ ∃ room,
          mapGet (⟨[("r", ⟨"r", DrawingState.initState, [], 0⟩)], []⟩ : RoomManager).rooms
              "r" = some room ∧ room.users = []) :=
  ⟨(claim_c9_eviction_revalidated RoomManager.emptyManager "r" "a" none 0).1,
   (claim_c9_eviction_revalidated RoomManager.emptyManager "r" "a" none 0).2
      (⟨[("r", ⟨"r", DrawingState.initState, [], 0⟩)], []⟩ : RoomManager) "r"
      (by decide)⟩

instance keysNodupDecidable {B : Type} (m : List (String × B)) :
    Decidable (keysNodup m) :=
  inferInstanceAs (Decidable ((m.map Prod.fst).Nodup))

/-- Claim C10: if connection `c` is listed in room `other`'s user map, then
`addUserToRoom` of `c` into a different room `roomId` leaves room `other`
untouched (`c` stays in its user map, `getRoomUsers other` is unchanged)
while the reverse index now maps `c` to `roomId`; and a subsequent
`removeUser c` removes `c` from `roomId`'s user map only, leaving room
`other` exactly as before.  (`roomId ≠ ""` reflects the JS falsy-id guard
in `removeUser`; `keysNodup` states that the target room's user map, like
every real JS `Map`, has unique keys.) -/
theorem claim_c10_join_frame (rm : RoomManager) (other roomId c : String)
    (roomA : Room) (u : User) (nm : Option String) (now : Nat)
    (hne : other ≠ roomId) (hrid : roomId ≠ "")
    (hA : mapGet rm.rooms other = some roomA)
    (hu : mapGet roomA.users c = some u)
    (hN : keysNodup ((RoomManager.getOrCreateRoom rm roomId now).2).users) :
    mapGet ((RoomManager.addUserToRoom rm roomId c nm now).1).rooms other
        = some roomA
    ∧ mapGet ((RoomManager.addUserToRoom rm roomId c nm now).1).userRooms c
        = some roomId
    ∧ RoomManager.getRoomUsers
          ((RoomManager.addUserToRoom rm roomId c nm now).1) other
        = RoomManager.getRoomUsers rm other
    ∧ mapGet ((RoomManager.removeUser
          ((RoomManager.addUserToRoom rm roomId c nm now).1) c).1).rooms other
        = some roomA
    ∧ mapGet roomA.users c = some u
    ∧ (∃ roomB,
        mapGet ((RoomManager.removeUser
            ((RoomManager.addUserToRoom rm roomId c nm now).1) c).1).rooms roomId
          = some roomB
        ∧ mapGet roomB.users c = none) := by
  have hAne := RoomManager.addUserToRoom_rooms_ne rm roomId c other nm now hne
  have hAeq : mapGet ((RoomManager.addUserToRoom rm roomId c nm now).1).rooms other
      = some roomA := by rw [hAne, hA]
  have hUR := RoomManager.addUserToRoom_userRooms_self rm roomId c nm now
  have hBself := RoomManager.addUserToRoom_rooms_self rm roomId c nm now
  have hrem := RoomManager.removeUser_eval
      ((RoomManager.addUserToRoom rm roomId c nm now).1) c roomId _ hUR hrid hBself
  refine ⟨hAeq, hUR, ?_, ?_, hu, ?_⟩
  · unfold RoomManager.getRoomUsers
    rw [hAne]
  · rw [hrem]
    show mapGet (mapSet ((RoomManager.addUserToRoom rm roomId c nm now).1).rooms
        roomId _) other = some roomA
    rw [mapGet_mapSet_ne _ _ _ _ hne]
    exact hAeq
  · refine ⟨{ (RoomManager.getOrCreateRoom rm roomId now).2 with
        users := mapDelete (mapSet
          ((RoomManager.getOrCreateRoom rm roomId now).2).users c
          ((RoomManager.addUserToRoom rm roomId c nm now).2)) c }, ?_, ?_⟩
    · rw [hrem]
      exact mapGet_mapSet_self _ _ _
    · show mapGet (mapDelete (mapSet
          ((RoomManager.getOrCreateRoom rm roomId now).2).users c
          ((RoomManager.addUserToRoom rm roomId c nm now).2)) c) c = none
      exact mapGet_mapDelete_self _ _ (keysNodup_mapSet _ _ _ hN)

/-- Witness for C10: "c" joins room "A" of the empty manager, then joins
room "B"; after `removeUser "c"`, room "A" still holds "c" and room "B" no
longer does. -/
theorem claim_c10_witness :
    mapGet ((RoomManager.removeUser
        ((RoomManager.addUserToRoom
          (RoomManager.addUserToRoom RoomManager.emptyManager "A" "c" none 0).1
          "B" "c" none 0).1) "c").1).rooms "A"
      = some ⟨"A", DrawingState.initState,
          [("c", ⟨"c", "User 1", "#FF6B6B", 0⟩)], 0⟩
    ∧ (∃ roomB,
        mapGet ((RoomManager.removeUser
            ((RoomManager.addUserToRoom
              (RoomManager.addUserToRoom RoomManager.emptyManager "A" "c" none 0).1
              "B" "c" none 0).1) "c").1).rooms "B" = some roomB
        ∧ mapGet roomB.users "c" = none) := by
  have h := claim_c10_join_frame
    (RoomManager.addUserToRoom RoomManager.emptyManager "A" "c" none 0).1
    "A" "B" "c"
    (⟨"A", DrawingState.initState, [("c", ⟨"c", "User 1", "#FF6B6B", 0⟩)], 0⟩ : Room)
    (⟨"c", "User 1", "#FF6B6B", 0⟩ : User) none 0
    (by decide) (by decide) (by decide) (by decide) (by decide)
  exact ⟨h.2.2.2.1, h.2.2.2.2.2⟩

/-! ## Client replay (client main script) and the determinism contract -/

namespace DrawingState

/-- `getState` from `drawing-state.js`: the payload of the `canvas-state`
message sent to a new joiner — the active slice and the cursor. -/
def getState {A : Type} (s : DrawingState A) : List A × Int :=
  (getActiveOperations s, s.currentIndex)

end DrawingState

/-- The client's replica: `app.operationHistory` and `app.currentIndex`. -/
structure ClientState (A : Type) where
  operationHistory : List A
  currentIndex : Int
deriving DecidableEq, Repr

namespace Client

variable {A : Type}

/-- The `onCanvasState` handler applied to the server's `getState`
payload: the client adopts the active slice as its whole history. -/
def onCanvasState (s : DrawingState A) : ClientState A :=
  ⟨(DrawingState.getState s).1, (DrawingState.getState s).2⟩

/-- The `onStrokeComplete` handler: push the broadcast operation and
increment the cursor (no truncation of any undone suffix). -/
def onStrokeComplete (k : ClientState A) (op : A) : ClientState A :=
  ⟨k.operationHistory ++ [op], k.currentIndex + 1⟩

/-- The `onUndo` handler: decrement the cursor when it is non-negative. -/
def onUndo (k : ClientState A) : ClientState A :=
  if 0 ≤ k.currentIndex then { k with currentIndex := k.currentIndex - 1 } else k

/-- The `onRedo` handler: increment the cursor when it is strictly below
the local tail. -/
def onRedo (k : ClientState A) : ClientState A :=
  if k.currentIndex < (k.operationHistory.length : Int) - 1 then
    { k with currentIndex := k.currentIndex + 1 }
  else k

/-- The `onClearCanvas` handler: reset history and cursor. -/
def onClearCanvas (_k : ClientState A) : ClientState A := ⟨[], -1⟩

/-- The slice the client redraws:
`app.operationHistory.slice(0, app.currentIndex + 1)`. -/
def activeOps (k : ClientState A) : List A :=
  jsSliceEnd k.operationHistory (k.currentIndex + 1)

end Client

/-- One durable request reaching the server: submit a stroke, undo, redo,
or clear. -/
inductive Ev (A : Type) where
  | add (op : A)
  | undo
  | redo
  | clear
deriving DecidableEq, Repr

/-- The server's log transition for one request. -/
def serverStep {A : Type} (s : DrawingState A) : Ev A → DrawingState A
  | Ev.add op => DrawingState.addOperation s op
  | Ev.undo => (DrawingState.undo s).2
  | Ev.redo => (DrawingState.redo s).2
  | Ev.clear => DrawingState.clear s

/-- The combined server/client transition, with the server's broadcast
policy from the socket handlers: a stroke-complete and a clear are always
broadcast; an undo or redo is broadcast only when the log returned an
operation (`if (operation)`). -/
def sysStep {A : Type} (p : DrawingState A × ClientState A) (ev : Ev A) :
    DrawingState A × ClientState A :=
  match ev with
  | Ev.add op => (DrawingState.addOperation p.1 op, Client.onStrokeComplete p.2 op)
  | Ev.undo =>
      let r := DrawingState.undo p.1
      (r.2, if r.1.isSome then Client.onUndo p.2 else p.2)
  | Ev.redo =>
      let r := DrawingState.redo p.1
      (r.2, if r.1.isSome then Client.onRedo p.2 else p.2)
  | Ev.clear => (DrawingState.clear p.1, Client.onClearCanvas p.2)

/-- Run a whole request sequence through the combined transition. -/
def sysRun {A : Type} (p : DrawingState A × ClientState A) (evs : List (Ev A)) :
    DrawingState A × ClientState A :=
  evs.foldl sysStep p

/-- A request sequence in which every append reaches the server while its
cursor is at the tail of the log and the log is below capacity (undo, redo
and clear are unrestricted). -/
def goodEvents {A : Type} (s : DrawingState A) : List (Ev A) → Bool
  | [] => true
  | ev :: rest =>
      (match ev with
       | Ev.add _ =>
          decide (s.currentIndex = (s.operations.length : Int) - 1) &&
          decide (s.operations.length < DrawingState.maxHistorySize)
       | _ => true)
      && goodEvents (serverStep s ev) rest

/-- Claim C6 counterexample: starting from the snapshot of the empty log,
the request sequence append 1, undo, append 2 leaves the server's active
slice as `[2]` (the append truncated the undone entry) but the client's
replayed active slice as `[1]` (its handler pushes without truncating). -/
theorem claim_c6_counterexample :
    ¬ (Client.activeOps
          (sysRun ((DrawingState.initState : DrawingState Nat),
            Client.onCanvasState DrawingState.initState)
            [Ev.add 1, Ev.undo, Ev.add 2]).2
        = DrawingState.getActiveOperations
            (sysRun ((DrawingState.initState : DrawingState Nat),
              Client.onCanvasState DrawingState.initState)
              [Ev.add 1, Ev.undo, Ev.add 2]).1) := by
  decide

/-- The replica coupling: the client holds exactly the server's log and
cursor. -/
def Coupled {A : Type} (s : DrawingState A) (k : ClientState A) : Prop :=
  k.operationHistory = s.operations ∧ k.currentIndex = s.currentIndex

theorem jsGet_isSome {A : Type} (l : List A) (i : Int) (h0 : 0 ≤ i)
    (h1 : i < (l.length : Int)) : (jsGet l i).isSome = true := by
  unfold jsGet
  rw [if_neg (by omega)]
  have hn : i.toNat < l.length := by omega
  rw [List.get?_eq_get hn]
  rfl

/-- With the cursor at the tail of a non-saturated log, `addOperation` is a
plain push. -/
theorem addOperation_at_tail {A : Type} (s : DrawingState A) (op : A)
    (hc : ¬ s.currentIndex < (s.operations.length : Int) - 1)
    (hlen : s.operations.length < DrawingState.maxHistorySize) :
    DrawingState.addOperation s op
      = ⟨s.operations ++ [op], s.currentIndex + 1⟩ := by
  have hlen' : s.operations.length < 1000 := hlen
  have hno : ¬ (DrawingState.maxHistorySize < (s.operations ++ [op]).length) := by
    show ¬ (1000 < (s.operations ++ [op]).length)
    simp only [List.length_append, List.length_singleton]
    omega
  unfold DrawingState.addOperation
  rw [if_neg hc, if_neg hno]

theorem sysStep_fst {A : Type} (p : DrawingState A × ClientState A)
    (ev : Ev A) : (sysStep p ev).1 = serverStep p.1 ev := by
  cases ev <;> rfl

theorem inv_serverStep {A : Type} (s : DrawingState A) (ev : Ev A)
    (h : DrawingState.Inv s) : DrawingState.Inv (serverStep s ev) := by
  cases ev with
  | add op => exact DrawingState.inv_addOperation s op h
  | undo => exact DrawingState.inv_undo s h
  | redo => exact DrawingState.inv_redo s h
  | clear => exact DrawingState.inv_clear s

/-- One coupled step: under the invariant, an append at the tail of a
non-saturated log, or any undo/redo/clear, keeps server and client replicas
identical. -/
theorem sysStep_coupled {A : Type} (s : DrawingState A) (k : ClientState A)
    (ev : Ev A) (hi : DrawingState.Inv s) (hc : Coupled s k)
    (hg : (match ev with
       | Ev.add _ =>
          decide (s.currentIndex = (s.operations.length : Int) - 1) &&
          decide (s.operations.length < DrawingState.maxHistorySize)
       | _ => true) = true) :
    Coupled (sysStep (s, k) ev).1 (sysStep (s, k) ev).2 := by
  obtain ⟨hi1, hi2, hi3⟩ := hi
  obtain ⟨hk1, hk2⟩ := hc
  cases ev with
  | add op =>
    simp only [Bool.and_eq_true, decide_eq_true_eq] at hg
    obtain ⟨ht, hlt⟩ := hg
    have hcn : ¬ s.currentIndex < (s.operations.length : Int) - 1 := by omega
    show Coupled (DrawingState.addOperation s op) (Client.onStrokeComplete k op)
    rw [addOperation_at_tail s op hcn hlt]
    constructor
    · show k.operationHistory ++ [op] = s.operations ++ [op]
      rw [hk1]
    · show k.currentIndex + 1 = s.currentIndex + 1
      rw [hk2]
  | undo =>
    show Coupled (DrawingState.undo s).2
        (if (DrawingState.undo s).1.isSome then Client.onUndo k else k)
    by_cases h0 : 0 ≤ s.currentIndex
    · have hu : DrawingState.undo s
          = (jsGet s.operations s.currentIndex,
             ⟨s.operations, s.currentIndex - 1⟩) := by
        unfold DrawingState.undo
        rw [if_pos h0]
      have hsome : (jsGet s.operations s.currentIndex).isSome = true :=
        jsGet_isSome _ _ h0 (by omega)
      rw [hu, if_pos hsome]
      have hou : Client.onUndo k
          = ⟨k.operationHistory, k.currentIndex - 1⟩ := by
        unfold Client.onUndo
        rw [if_pos (by rw [hk2]; exact h0)]
      rw [hou]
      exact ⟨hk1, by rw [hk2]⟩
    · have hu : DrawingState.undo s = (none, s) := by
        unfold DrawingState.undo
        rw [if_neg h0]
      rw [hu, if_neg (by simp)]
      exact ⟨hk1, hk2⟩
  | redo =>
    show Coupled (DrawingState.redo s).2
        (if (DrawingState.redo s).1.isSome then Client.onRedo k else k)
    by_cases hgd : s.currentIndex < (s.operations.length : Int) - 1
    · have hr : DrawingState.redo s
          = (jsGet s.operations (s.currentIndex + 1),
             ⟨s.operations, s.currentIndex + 1⟩) := by
        unfold DrawingState.redo
        rw [if_pos hgd]
      have hsome : (jsGet s.operations (s.currentIndex + 1)).isSome = true :=
        jsGet_isSome _ _ (by omega) (by omega)
      rw [hr, if_pos hsome]
      have hor : Client.onRedo k
          = ⟨k.operationHistory, k.currentIndex + 1⟩ := by
        unfold Client.onRedo
        rw [if_pos (by rw [hk1, hk2]; exact hgd)]
      rw [hor]
      exact ⟨hk1, by rw [hk2]⟩
    · have hr : DrawingState.redo s = (none, s) := by
        unfold DrawingState.redo
        rw [if_neg hgd]
      rw [hr, if_neg (by simp)]
      exact ⟨hk1, hk2⟩
  | clear => exact ⟨rfl, rfl⟩

/-- The coupling is preserved along any good request sequence. -/
theorem sysRun_coupled {A : Type} (evs : List (Ev A)) :
    ∀ (s : DrawingState A) (k : ClientState A),
      DrawingState.Inv s → Coupled s k → goodEvents s evs = true →
      Coupled (sysRun (s, k) evs).1 (sysRun (s, k) evs).2 := by
  induction evs with
  | nil =>
    intro s k _ hc _
    exact hc
  | cons ev rest ih =>
    intro s k hi hc hg
    unfold goodEvents at hg
    rw [Bool.and_eq_true] at hg
    obtain ⟨hg1, hg2⟩ := hg
    have hstep := sysStep_coupled s k ev hi hc hg1
    have hinv2 : DrawingState.Inv (sysStep (s, k) ev).1 := by
      rw [sysStep_fst]
      exact inv_serverStep s ev hi
    have hg2' : goodEvents ((sysStep (s, k) ev).1) rest = true := by
      rw [sysStep_fst]
      exact hg2
    exact ih (sysStep (s, k) ev).1 (sysStep (s, k) ev).2 hinv2 hstep hg2'

/-- Claim C6 (amended): for every request sequence in which each append
reaches the server with its cursor at the tail of the log and the log
below its 1000-entry capacity (undo/redo/clear unrestricted), a client
that starts from the canvas-state snapshot of a reachable server state
whose cursor is at the tail, and applies its replay handlers to the
broadcasts, reconstructs exactly the server's active slice (and cursor).
Without these conditions the replicas can diverge, because the client's
stroke-complete handler pushes without truncating the undone suffix and
never enforces the capacity bound. -/
theorem claim_c6_replay {A : Type} (s : DrawingState A) (evs : List (Ev A))
    (hr : DrawingState.Reachable s)
    (ht : s.currentIndex = (s.operations.length : Int) - 1)
    (hg : goodEvents s evs = true) :
    Client.activeOps (sysRun (s, Client.onCanvasState s) evs).2
      = DrawingState.getActiveOperations
          (sysRun (s, Client.onCanvasState s) evs).1
    ∧ (sysRun (s, Client.onCanvasState s) evs).2.currentIndex
      = (sysRun (s, Client.onCanvasState s) evs).1.currentIndex := by
  have hi := DrawingState.inv_of_reachable hr
  have hc0 : Coupled s (Client.onCanvasState s) := by
    constructor
    · show DrawingState.getActiveOperations s = s.operations
      unfold DrawingState.getActiveOperations jsSliceEnd
      rw [ht]
      rw [if_neg (by omega)]
      have hn : ((s.operations.length : Int) - 1 + 1).toNat
          = s.operations.length := by omega
      rw [hn, List.take_length]
    · rfl
  obtain ⟨hf1, hf2⟩ := sysRun_coupled evs s (Client.onCanvasState s) hi hc0 hg
  refine ⟨?_, hf2⟩
  unfold Client.activeOps DrawingState.getActiveOperations
  rw [hf1, hf2]

/-- Witness for C6 at the empty snapshot and the sequence append 1, undo,
redo, append 2 (every append happens with the cursor at the tail). -/
theorem claim_c6_witness :
    Client.activeOps
        (sysRun ((DrawingState.initState : DrawingState Nat),
          Client.onCanvasState DrawingState.initState)
          [Ev.add 1, Ev.undo, Ev.redo, Ev.add 2]).2
      = DrawingState.getActiveOperations
          (sysRun ((DrawingState.initState : DrawingState Nat),
            Client.onCanvasState DrawingState.initState)
            [Ev.add 1, Ev.undo, Ev.redo, Ev.add 2]).1
    ∧ (sysRun ((DrawingState.initState : DrawingState Nat),
          Client.onCanvasState DrawingState.initState)
          [Ev.add 1, Ev.undo, Ev.redo, Ev.add 2]).2.currentIndex
      = (sysRun ((DrawingState.initState : DrawingState Nat),
          Client.onCanvasState DrawingState.initState)
          [Ev.add 1, Ev.undo, Ev.redo, Ev.add 2]).1.currentIndex :=
  claim_c6_replay DrawingState.initState [Ev.add 1, Ev.undo, Ev.redo, Ev.add 2]
    DrawingState.Reachable.init (by decide) (by decide)
